import Mathlib

/-!
A verification development for the FPL assistant's scoring-and-selection
engine (`fpl_assistant.py`): the fixture-difficulty aggregator
(`compute_fdr_for_team`), the composite scoring formula, the transfer-target
ranker (`generate_transfer_suggestions`), the budget-constrained swap
recommender (`suggest_transfer_moves`) and the greedy squad builder
(`build_wildcard_team`).  Currency is modelled exactly with rationals
(`now_cost` is an integer number of tenths, prices are `now_cost / 10`),
and the `1e-3` scoring epsilon is the exact rational `1 / 1000`.
-/

namespace FPL

/-- A fixture row as consumed by `compute_fdr_for_team`: columns `event`,
`team_h`, `team_a`, `team_h_difficulty`, `team_a_difficulty`. -/
structure Fixture where
  event : ℕ
  team_h : ℕ
  team_a : ℕ
  team_h_difficulty : ℕ
  team_a_difficulty : ℕ
deriving DecidableEq, Repr

/-- A player row of the merged players table: the columns the core reads
(`id`, `web_name`, `team`, `element_type`, `now_cost`, `status`,
`points_per_game`, `minutes`). -/
structure Player where
  id : ℕ
  web_name : String
  team : ℕ
  element_type : ℕ
  now_cost : ℕ
  status : Char
  points_per_game : ℚ
  minutes : ℕ
deriving DecidableEq, Repr

/-- `fixtures["event"].min()`: the smallest round number in the list
(junk value 0 on the empty list, where it is never consulted because the
window filter over an empty list is empty). -/
def minEvent : List Fixture → ℕ
  | [] => 0
  | f :: fs => (fs.map Fixture.event).foldl min f.event

/-- The window filter
`fixtures[(fixtures["event"] >= current_gw) & (fixtures["event"] < current_gw + weeks_ahead)]`
with `current_gw = fixtures["event"].min()`. -/
def windowFixtures (fixtures : List Fixture) (weeks_ahead : ℤ) : List Fixture :=
  fixtures.filter fun f =>
    decide ((minEvent fixtures : ℤ) ≤ (f.event : ℤ) ∧
      (f.event : ℤ) < (minEvent fixtures : ℤ) + weeks_ahead)

/-- The `difficulties` accumulation loop: for each row, append the home
rating when `team_h == team_id` and the away rating when `team_a == team_id`
(both, for a degenerate fixture listing the team on both sides). -/
def sideRatings (team_id : ℕ) (l : List Fixture) : List ℕ :=
  (l.map fun f =>
    (if f.team_h = team_id then [f.team_h_difficulty] else []) ++
      (if f.team_a = team_id then [f.team_a_difficulty] else [])).flatten

/-- `sum(difficulties) / len(difficulties) if difficulties else 0.0`. -/
def meanQ (l : List ℕ) : ℚ :=
  if l = [] then 0 else ((l.map fun d => (d : ℚ)).sum) / (l.length : ℚ)

/-- `compute_fdr_for_team`: average fixture difficulty for `team_id` over
rounds in `[current_gw, current_gw + weeks_ahead)` where `current_gw` is the
minimum round of the whole list; for each windowed fixture the home rating is
collected when the team is the home side and the away rating when it is the
away side; 0.0 when nothing is collected. -/
def compute_fdr_for_team (team_id : ℕ) (fixtures : List Fixture)
    (weeks_ahead : ℤ) : ℚ :=
  meanQ (sideRatings team_id (windowFixtures fixtures weeks_ahead))

/-- Modelled from the spec (§4.1, §8): select all fixtures whose round lies
in `[anchor, anchor + window)` and whose home or away team equals the given
team identifier; map each selected fixture to its side-specific rating (home
rating when the team is the home side, away rating when the away side);
output the arithmetic mean of the collected ratings, or 0.0 when no fixture
matches. -/
def fdrSpec (team_id : ℕ) (fixtures : List Fixture) (weeks_ahead : ℤ) : ℚ :=
  meanQ ((fixtures.filter fun f =>
    decide ((minEvent fixtures : ℤ) ≤ (f.event : ℤ) ∧
      (f.event : ℤ) < (minEvent fixtures : ℤ) + weeks_ahead ∧
      (f.team_h = team_id ∨ f.team_a = team_id))).map
    fun f => if f.team_h = team_id then f.team_h_difficulty else f.team_a_difficulty)

/-- `minutes / max_minutes` with `max_minutes = max(gameweek, 1) * 90`. -/
def minutes_ratio (gameweek : ℕ) (p : Player) : ℚ :=
  (p.minutes : ℚ) / ((max gameweek 1 * 90 : ℕ) : ℚ)

/-- The composite score `(form × minutes_ratio) / (difficulty + 1e-3)` shared
by the ranker (`transfer_score`), the swap recommender (`current_score`,
`candidate_score`) and the squad builder (`score`). -/
def transfer_score (form mr fdr : ℚ) : ℚ :=
  form * mr / (fdr + 1 / 1000)

/-- A player's composite score in context: form is `points_per_game`, the
minutes ratio uses the gameweek, the difficulty is the player's team's
aggregated FDR over `weeks_ahead` rounds. -/
def playerScore (gameweek : ℕ) (fixtures : List Fixture) (weeks_ahead : ℤ)
    (p : Player) : ℚ :=
  transfer_score p.points_per_game (minutes_ratio gameweek p)
    (compute_fdr_for_team p.team fixtures weeks_ahead)

/-- `now_cost / 10.0`: price in millions. -/
def price (p : Player) : ℚ := (p.now_cost : ℚ) / 10

/-- `sort_values(key, ascending=False)`: sort descending by the key. -/
def sortDescBy (key : Player → ℚ) (l : List Player) : List Player :=
  List.insertionSort (fun a b => key b ≤ key a) l

/-- `sort_values(key)`: sort ascending by the key. -/
def sortAscBy (key : Player → ℚ) (l : List Player) : List Player :=
  List.insertionSort (fun a b => key a ≤ key b) l

/-! ### Transfer target ranker (`generate_transfer_suggestions`) -/

/-- The ranker's eligibility filter:
`(~merged["id"].isin(current_elements)) & (merged["status"] == "a")`. -/
def availablePool (pool : List Player) (current_elements : List ℕ) :
    List Player :=
  pool.filter fun p => decide (p.id ∉ current_elements) && decide (p.status = 'a')

/-- Core of `generate_transfer_suggestions`: filter out owned and unavailable
players, sort descending by `transfer_score` (FDR window fixed at 6) and take
the first `top_n`. -/
def generate_transfer_suggestions (gameweek : ℕ) (pool : List Player)
    (fixtures : List Fixture) (current_elements : List ℕ) (top_n : ℕ) :
    List Player :=
  (sortDescBy (playerScore gameweek fixtures 6)
    (availablePool pool current_elements)).take top_n

/-! ### Budget-constrained swap recommender (`suggest_transfer_moves`) -/

/-- The mutable bookkeeping of a swap pass: running `bank`, the owned set
`current_ids` and the per-team occupancy `team_count`. -/
structure SwapState where
  bank : ℚ
  current_ids : List ℕ
  team_count : ℕ → ℤ

/-- A suggested move `(sell_player_name, buy_player_name, price_difference)`. -/
abbrev Swap := String × String × ℚ

/-- `merged[merged["id"].isin(current_ids)]`: the rows of the pool that are
currently owned. -/
def currentSquad (pool : List Player) (picks : List ℕ) : List Player :=
  pool.filter fun p => decide (p.id ∈ picks)

/-- Occupancy of team `t` in a list of players, as an integer count. -/
def countTeam (t : ℕ) (l : List Player) : ℤ :=
  ((l.filter fun p => decide (p.team = t)).length : ℤ)

/-- The `team_count` defaultdict seeded by counting the current squad's rows
per team. -/
def initTeamCount (squad : List Player) : ℕ → ℤ :=
  fun t => countTeam t squad

/-- The candidate set for replacing `sell`: same `element_type`, not
currently owned, `status == "a"`, and
`now_cost / 10.0 ≤ available_budget = bank + sell_cost`. -/
def candidatesOf (pool : List Player) (st : SwapState) (sell : Player) :
    List Player :=
  pool.filter fun p =>
    decide (p.element_type = sell.element_type) &&
    decide (p.id ∉ st.current_ids) &&
    decide (p.status = 'a') &&
    decide (price p ≤ st.bank + price sell)

/-- Walk the (sorted) candidates and select the first whose team occupancy is
still below 3. -/
def selectCandidate (tcount : ℕ → ℤ) (cands : List Player) : Option Player :=
  cands.find? fun c => decide (tcount c.team < 3)

/-- The replacement chosen for `sell` from state `st`: candidates are sorted
descending by `candidate_score` and the first quota-respecting one is taken
(`none` both when the candidate set is empty and when no candidate respects
the 3-per-team rule). -/
def chosenFor (gameweek : ℕ) (fixtures : List Fixture) (pool : List Player)
    (st : SwapState) (sell : Player) : Option Player :=
  selectCandidate st.team_count
    (sortDescBy (playerScore gameweek fixtures 6) (candidatesOf pool st sell))

/-- State update after an accepted swap: `bank += sell_cost - buy_cost`, the
owned set swaps `sell.id` for `buy.id`, the sell team's occupancy is
decremented and the buy team's incremented. -/
def applySwap (st : SwapState) (sell buy : Player) : SwapState where
  bank := st.bank + price sell - price buy
  current_ids := buy.id :: st.current_ids.erase sell.id
  team_count := fun t =>
    st.team_count t - (if t = sell.team then 1 else 0) +
      (if t = buy.team then 1 else 0)

/-- One iteration of the recommender's outer loop: try to replace `sell`,
recording `(sell_name, buy_name, buy_cost - sell_cost)` and updating the
state on success, leaving everything unchanged on a skip. -/
def stepMove (gameweek : ℕ) (fixtures : List Fixture) (pool : List Player)
    (acc : SwapState × List Swap) (sell : Player) : SwapState × List Swap :=
  match chosenFor gameweek fixtures pool acc.1 sell with
  | none => acc
  | some buy =>
      (applySwap acc.1 sell buy,
        acc.2 ++ [(sell.web_name, buy.web_name, price buy - price sell)])

/-- `current_df.sort_values("current_score").head(max_transfers)`: the
`max_transfers` lowest-scoring owned players, in ascending score order. -/
def worstPlayers (gameweek : ℕ) (fixtures : List Fixture) (pool : List Player)
    (picks : List ℕ) (max_transfers : ℕ) : List Player :=
  (sortAscBy (playerScore gameweek fixtures 6)
    (currentSquad pool picks)).take max_transfers

/-- The initial swap state: the snapshot's bank, the picked ids and the
per-team occupancy of the current squad. -/
def initState (pool : List Player) (picks : List ℕ) (bank : ℚ) : SwapState :=
  ⟨bank, picks, initTeamCount (currentSquad pool picks)⟩

/-- The recommender pass after the first `k` worst players have been
considered: the running state and the suggestions emitted so far. -/
def passAfter (gameweek : ℕ) (fixtures : List Fixture) (pool : List Player)
    (picks : List ℕ) (bank : ℚ) (max_transfers k : ℕ) :
    SwapState × List Swap :=
  ((worstPlayers gameweek fixtures pool picks max_transfers).take k).foldl
    (stepMove gameweek fixtures pool) (initState pool picks bank, [])

/-- Core of `suggest_transfer_moves`: fold the per-player step over the
`max_transfers` worst-scoring owned players and return the suggestions. -/
def suggest_transfer_moves (gameweek : ℕ) (fixtures : List Fixture)
    (pool : List Player) (picks : List ℕ) (bank : ℚ) (max_transfers : ℕ) :
    List Swap :=
  ((worstPlayers gameweek fixtures pool picks max_transfers).foldl
    (stepMove gameweek fixtures pool) (initState pool picks bank, [])).2

/-! ### Greedy squad builder (`build_wildcard_team`) -/

/-- Increment a team-count map at team `t`. -/
def bump (tc : ℕ → ℤ) (t : ℕ) : ℕ → ℤ :=
  fun u => if u = t then tc u + 1 else tc u

/-- The builder's inner loop for one position: walk the sorted pool, skipping
a player when `price > remaining_budget` or `team_counts[team] >= 3`,
otherwise selecting them, until the position's requirement is met or the pool
is exhausted.  Returns the selected players, the remaining budget and the
updated team counts. -/
def greedyPos : ℕ → ℚ → (ℕ → ℤ) → List Player → List Player × ℚ × (ℕ → ℤ)
  | _, b, tc, [] => ([], b, tc)
  | 0, b, tc, _ :: _ => ([], b, tc)
  | needed + 1, b, tc, p :: ps =>
      if b < price p then greedyPos (needed + 1) b tc ps
      else if 3 ≤ tc p.team then greedyPos (needed + 1) b tc ps
      else
        let rest := greedyPos needed (b - price p) (bump tc p.team) ps
        (p :: rest.1, rest.2)

/-- `position_requirements = {1: 2, 2: 5, 3: 5, 4: 3}`, iterated in insertion
order. -/
def position_requirements : List (ℕ × ℕ) := [(1, 2), (2, 5), (3, 5), (4, 3)]

/-- `merged[merged["status"] == "a"]`: the builder only considers available
players. -/
def wcAvailable (pool : List Player) : List Player :=
  pool.filter fun p => decide (p.status = 'a')

/-- The builder's candidate pool for one position, sorted descending by
score. -/
def posPool (gameweek : ℕ) (fixtures : List Fixture) (weeks_ahead : ℤ)
    (available : List Player) (position : ℕ) : List Player :=
  sortDescBy (playerScore gameweek fixtures weeks_ahead)
    (available.filter fun p => decide (p.element_type = position))

/-- One position group of the builder's outer loop. -/
def buildStep (gameweek : ℕ) (fixtures : List Fixture) (weeks_ahead : ℤ)
    (available : List Player) (acc : List Player × ℚ × (ℕ → ℤ))
    (pr : ℕ × ℕ) : List Player × ℚ × (ℕ → ℤ) :=
  let r := greedyPos pr.2 acc.2.1 acc.2.2
    (posPool gameweek fixtures weeks_ahead available pr.1)
  (acc.1 ++ r.1, r.2)

/-- Core of `build_wildcard_team`: process the four position groups in order,
threading the remaining budget and the team counts; returns the selected
players, the remaining budget and the final team counts. -/
def build_wildcard_team (gameweek : ℕ) (pool : List Player)
    (fixtures : List Fixture) (weeks_ahead : ℤ) (total_budget : ℚ) :
    List Player × ℚ × (ℕ → ℤ) :=
  position_requirements.foldl
    (buildStep gameweek fixtures weeks_ahead (wcAvailable pool))
    ([], total_budget, fun _ => 0)

/-- Total price of a list of players. -/
def sumPrice (l : List Player) : ℚ := (l.map price).sum

/-! ### General helper lemmas -/

theorem mem_sortDescBy {key : Player → ℚ} {l : List Player} {x : Player} :
    x ∈ sortDescBy key l ↔ x ∈ l :=
  List.mem_insertionSort _

theorem mem_sortAscBy {key : Player → ℚ} {l : List Player} {x : Player} :
    x ∈ sortAscBy key l ↔ x ∈ l :=
  List.mem_insertionSort _

theorem countTeam_le_length (t : ℕ) (l : List Player) :
    countTeam t l ≤ (l.length : ℤ) := by
  unfold countTeam
  exact_mod_cast List.length_filter_le _ _

theorem sideRatings_nil (t : ℕ) : sideRatings t [] = [] := rfl

theorem mem_windowFixtures {f : Fixture} {fixtures : List Fixture} {w : ℤ}
    (h : f ∈ windowFixtures fixtures w) : f ∈ fixtures :=
  List.mem_of_mem_filter h

theorem sideRatings_cons (t : ℕ) (f : Fixture) (fs : List Fixture) :
    sideRatings t (f :: fs) =
      ((if f.team_h = t then [f.team_h_difficulty] else []) ++
        (if f.team_a = t then [f.team_a_difficulty] else [])) ++
        sideRatings t fs := by
  simp [sideRatings]

/-- On fixtures whose two sides are distinct teams, the code's per-row double
append collects exactly one rating per involved fixture: the side-specific
one. -/
theorem sideRatings_eq_pick (t : ℕ) (l : List Fixture)
    (h : ∀ f ∈ l, f.team_h ≠ f.team_a) :
    sideRatings t l =
      (l.filter fun f => decide (f.team_h = t ∨ f.team_a = t)).map
        fun f => if f.team_h = t then f.team_h_difficulty
          else f.team_a_difficulty := by
  induction l with
  | nil => rfl
  | cons f fs ih =>
    have hd : f.team_h ≠ f.team_a := h f (by simp)
    have ih' := ih fun g hg => h g (by simp [hg])
    rw [sideRatings_cons, ih', List.filter_cons]
    by_cases h1 : f.team_h = t
    · have h2 : f.team_a ≠ t := fun h2 => hd (h1.trans h2.symm)
      simp [h1, h2]
    · by_cases h2 : f.team_a = t
      · simp [h1, h2]
      · simp [h1, h2]

/-- Filtering the windowed fixtures down to those involving the team is the
spec's one-pass window-and-involvement filter. -/
theorem windowFilter_decomp (t : ℕ) (fixtures : List Fixture) (w : ℤ) :
    (windowFixtures fixtures w).filter
      (fun f => decide (f.team_h = t ∨ f.team_a = t)) =
    fixtures.filter fun f =>
      decide ((minEvent fixtures : ℤ) ≤ (f.event : ℤ) ∧
        (f.event : ℤ) < (minEvent fixtures : ℤ) + w ∧
        (f.team_h = t ∨ f.team_a = t)) := by
  unfold windowFixtures
  rw [List.filter_filter]
  apply List.filter_congr
  intro f _
  simp only [Bool.decide_and]
  rw [Bool.and_comm, Bool.and_assoc]

/-! ### C3 — difficulty aggregation -/

/-- C3: on fixture lists whose fixtures reference two distinct teams, the
aggregator returns exactly the arithmetic mean of the side-specific
difficulty ratings over the fixtures in `[min_round, min_round + w)` that
involve the team (the spec-modelled `fdrSpec`); and when no fixture in the
window involves the team it returns 0.0. -/
theorem fdr_eq_spec (team_id : ℕ) (fixtures : List Fixture) (w : ℤ)
    (hdist : ∀ f ∈ fixtures, f.team_h ≠ f.team_a) :
    compute_fdr_for_team team_id fixtures w = fdrSpec team_id fixtures w ∧
    ((∀ f ∈ windowFixtures fixtures w,
        f.team_h ≠ team_id ∧ f.team_a ≠ team_id) →
      compute_fdr_for_team team_id fixtures w = 0) := by
  constructor
  · unfold compute_fdr_for_team fdrSpec
    rw [sideRatings_eq_pick team_id (windowFixtures fixtures w)
        (fun f hf => hdist f (mem_windowFixtures hf)),
      windowFilter_decomp]
  · intro hno
    unfold compute_fdr_for_team
    have hnil : sideRatings team_id (windowFixtures fixtures w) = [] := by
      unfold sideRatings
      rw [List.flatten_eq_nil_iff]
      intro x hx
      rw [List.mem_map] at hx
      obtain ⟨f, hf, rfl⟩ := hx
      obtain ⟨h1, h2⟩ := hno f hf
      simp [h1, h2]
    rw [hnil]
    rfl

/-- C3 witness: the spec's own scenario — fixtures in rounds 6 and 7, team 1,
window 6 — where the theorem applies and the mean is 2.5. -/
theorem fdr_eq_spec_witness :
    compute_fdr_for_team 1 [⟨6, 1, 2, 3, 4⟩, ⟨7, 1, 3, 2, 5⟩] 6 =
      fdrSpec 1 [⟨6, 1, 2, 3, 4⟩, ⟨7, 1, 3, 2, 5⟩] 6 ∧
    compute_fdr_for_team 1 [⟨6, 1, 2, 3, 4⟩, ⟨7, 1, 3, 2, 5⟩] 6 = 5 / 2 :=
  ⟨(fdr_eq_spec 1 [⟨6, 1, 2, 3, 4⟩, ⟨7, 1, 3, 2, 5⟩] 6 (by decide)).1,
    by norm_num [compute_fdr_for_team, windowFixtures, minEvent, sideRatings,
      meanQ]; decide⟩

/-! ### C4 — scoring monotonicity -/

/-- C4 counterexample: with minutes_ratio = 0 (a non-negative input) the
score is 0 for every form value, so strictly increasing form does not
strictly increase the score: form 1 and form 2 yield equal scores. -/
theorem transfer_score_form_flat_cex :
    (0 : ℚ) ≤ 1 ∧ (0 : ℚ) ≤ 2 ∧ (0 : ℚ) ≤ 0 ∧ (1 : ℚ) < 2 ∧
      transfer_score 1 0 0 = transfer_score 2 0 0 := by
  refine ⟨by norm_num, by norm_num, le_refl 0, by norm_num, ?_⟩
  norm_num [transfer_score]

/-- C4 amended: with a strictly positive minutes ratio, strictly increasing
form strictly increases the score; with strictly positive form and minutes
ratio, strictly increasing (non-negative) difficulty strictly decreases the
score. -/
theorem transfer_score_monotone :
    (∀ f₁ f₂ mr d : ℚ, 0 ≤ d → 0 < mr → f₁ < f₂ →
      transfer_score f₁ mr d < transfer_score f₂ mr d) ∧
    (∀ form mr d₁ d₂ : ℚ, 0 < form → 0 < mr → 0 ≤ d₁ → d₁ < d₂ →
      transfer_score form mr d₂ < transfer_score form mr d₁) := by
  constructor
  · intro f₁ f₂ mr d hd hmr hf
    have hden : (0 : ℚ) < d + 1 / 1000 := by linarith
    unfold transfer_score
    exact (div_lt_div_iff_of_pos_right hden).mpr
      (mul_lt_mul_of_pos_right hf hmr)
  · intro form mr d₁ d₂ hform hmr hd₁ hd
    unfold transfer_score
    exact div_lt_div_of_pos_left (mul_pos hform hmr) (by linarith)
      (by linarith)

/-- C4 amended witness: concrete strict increases at form 1 → 2 (minutes
ratio 1, difficulty 2) and difficulty 2 → 3 (form 1, minutes ratio 1). -/
theorem transfer_score_monotone_witness :
    transfer_score 1 1 2 < transfer_score 2 1 2 ∧
    transfer_score 1 1 3 < transfer_score 1 1 2 :=
  ⟨transfer_score_monotone.1 1 2 1 2 (by norm_num) (by norm_num) (by norm_num),
    transfer_score_monotone.2 1 1 2 3 (by norm_num) (by norm_num) (by norm_num)
      (by norm_num)⟩

/-! ### C8 — non-positive window handling -/

/-- C8 counterexample: the aggregator called with window size 0 on a
non-empty fixture list returns the sentinel 0.0 — a normal result.  No
validation of the window size exists anywhere in the code, so the claimed
fail-fast error is never raised. -/
theorem nonpos_window_no_failfast_cex :
    compute_fdr_for_team 1 [⟨6, 1, 2, 3, 4⟩] 0 = 0 := by decide

/-- C8 amended: a non-positive window size is accepted, makes the round
window empty, and the aggregator returns the 0.0 no-data sentinel (normal
return, no error). -/
theorem fdr_nonpos_window (team_id : ℕ) (fixtures : List Fixture) (w : ℤ)
    (hw : w ≤ 0) : compute_fdr_for_team team_id fixtures w = 0 := by
  unfold compute_fdr_for_team
  have hwin : windowFixtures fixtures w = [] := by
    unfold windowFixtures
    rw [List.filter_eq_nil_iff]
    intro f _
    simp only [decide_eq_true_eq, not_and, not_lt]
    intro h1
    omega
  rw [hwin]
  rfl

/-- C8 amended witness: window −1 on a concrete fixture list yields 0. -/
theorem fdr_nonpos_window_witness :
    compute_fdr_for_team 2 [⟨6, 1, 2, 3, 4⟩] (-1) = 0 :=
  fdr_nonpos_window 2 [⟨6, 1, 2, 3, 4⟩] (-1) (by norm_num)

/-! ### C6 — ranker exclusion -/

theorem availablePool_mem {pool : List Player} {owned : List ℕ} {p : Player}
    (h : p ∈ availablePool pool owned) : p.id ∉ owned ∧ p.status = 'a' := by
  unfold availablePool at h
  rw [List.mem_filter] at h
  simpa using h.2

/-- C6: no player in the ranker's output is owned or has a status other than
"a"; and when the filtered pool is empty the output is the empty list (a
normal result). -/
theorem ranker_exclusion (gameweek : ℕ) (pool : List Player)
    (fixtures : List Fixture) (owned : List ℕ) (top_n : ℕ) :
    (∀ p ∈ generate_transfer_suggestions gameweek pool fixtures owned top_n,
      p.id ∉ owned ∧ p.status = 'a') ∧
    (availablePool pool owned = [] →
      generate_transfer_suggestions gameweek pool fixtures owned top_n = []) := by
  constructor
  · intro p hp
    unfold generate_transfer_suggestions at hp
    exact availablePool_mem (mem_sortDescBy.mp (List.take_subset _ _ hp))
  · intro h
    unfold generate_transfer_suggestions
    rw [h]
    simp [sortDescBy]

/-! ### Concrete scenario data shared by the witnesses -/

/-- Scenario players: three same-position players; ids 1, 2 owned. -/
def pA : Player := ⟨1, "A", 1, 1, 50, 'a', 0, 0⟩

def pB : Player := ⟨2, "B", 2, 1, 50, 'a', 1, 90⟩

def pC : Player := ⟨3, "C", 3, 1, 50, 'a', 2, 90⟩

/-- Scenario players for the skip case: the worst owned player qA has
position 1 with no replacement candidates; qB has position 2 and candidate
qC. -/
def qA : Player := ⟨1, "A", 1, 1, 50, 'a', 0, 0⟩

def qB : Player := ⟨2, "B", 2, 2, 50, 'a', 1, 90⟩

def qC : Player := ⟨3, "C", 3, 2, 50, 'a', 2, 90⟩

/-- C6 witness: on a concrete pool with player 1 owned, the output contains
pC, and the theorem yields that pC is unowned and available. -/
theorem ranker_exclusion_witness :
    pC.id ∉ ([1] : List ℕ) ∧ pC.status = 'a' :=
  (ranker_exclusion 1 [pA, pB, pC] [] [1] 5).1 pC
    (by norm_num [generate_transfer_suggestions, availablePool, sortDescBy,
      List.insertionSort, List.orderedInsert, playerScore, transfer_score,
      minutes_ratio, compute_fdr_for_team, windowFixtures, minEvent,
      sideRatings, meanQ, price, pA, pB, pC])

/-! ### C1 — swap-pass invariants -/

theorem candidatesOf_spec {pool : List Player} {st : SwapState}
    {sell p : Player} (h : p ∈ candidatesOf pool st sell) :
    p.element_type = sell.element_type ∧ p.id ∉ st.current_ids ∧
      p.status = 'a' ∧ price p ≤ st.bank + price sell := by
  unfold candidatesOf at h
  rw [List.mem_filter] at h
  have h2 := h.2
  simp only [Bool.and_eq_true, decide_eq_true_eq] at h2
  tauto

theorem chosenFor_spec {gameweek : ℕ} {fixtures : List Fixture}
    {pool : List Player} {st : SwapState} {sell buy : Player}
    (h : chosenFor gameweek fixtures pool st sell = some buy) :
    buy ∈ candidatesOf pool st sell ∧ st.team_count buy.team < 3 := by
  unfold chosenFor selectCandidate at h
  refine ⟨mem_sortDescBy.mp (List.mem_of_find?_eq_some h), ?_⟩
  simpa using List.find?_some h

theorem stepMove_inv (gameweek : ℕ) (fixtures : List Fixture)
    (pool : List Player) (acc : SwapState × List Swap) (sell : Player)
    (hbank : 0 ≤ acc.1.bank) (hocc : ∀ t, acc.1.team_count t ≤ 3) :
    0 ≤ (stepMove gameweek fixtures pool acc sell).1.bank ∧
      ∀ t, (stepMove gameweek fixtures pool acc sell).1.team_count t ≤ 3 := by
  unfold stepMove
  cases hch : chosenFor gameweek fixtures pool acc.1 sell with
  | none => exact ⟨hbank, hocc⟩
  | some buy =>
    obtain ⟨hmem, hlt⟩ := chosenFor_spec hch
    obtain ⟨-, -, -, hpr⟩ := candidatesOf_spec hmem
    constructor
    · show 0 ≤ (applySwap acc.1 sell buy).bank
      simp only [applySwap]
      linarith
    · intro t
      show (applySwap acc.1 sell buy).team_count t ≤ 3
      simp only [applySwap]
      have h3 := hocc t
      by_cases h2 : t = buy.team
      · rw [h2]
        have h4 := hocc buy.team
        split_ifs <;> omega
      · rw [if_neg h2]
        split_ifs <;> omega

theorem foldl_stepMove_inv (gameweek : ℕ) (fixtures : List Fixture)
    (pool : List Player) (l : List Player) (acc : SwapState × List Swap)
    (hbank : 0 ≤ acc.1.bank) (hocc : ∀ t, acc.1.team_count t ≤ 3) :
    0 ≤ (l.foldl (stepMove gameweek fixtures pool) acc).1.bank ∧
      ∀ t, (l.foldl (stepMove gameweek fixtures pool) acc).1.team_count t ≤ 3 := by
  induction l generalizing acc with
  | nil => exact ⟨hbank, hocc⟩
  | cons x xs ih =>
    rw [List.foldl_cons]
    obtain ⟨h1, h2⟩ := stepMove_inv gameweek fixtures pool acc x hbank hocc
    exact ih _ h1 h2

/-- C1: starting from a non-negative bank and per-team occupancies of at most
3, at every point of the recommender pass — after the first k worst players
have been considered, each accepted swap included — the running bank is
non-negative and every team's occupancy is at most 3; and the function's
output is the pass run to completion. -/
theorem swap_pass_invariant (gameweek : ℕ) (fixtures : List Fixture)
    (pool : List Player) (picks : List ℕ) (bank : ℚ) (m k : ℕ)
    (hbank : 0 ≤ bank)
    (hocc : ∀ t, initTeamCount (currentSquad pool picks) t ≤ 3) :
    (0 ≤ (passAfter gameweek fixtures pool picks bank m k).1.bank ∧
      ∀ t, (passAfter gameweek fixtures pool picks bank m k).1.team_count t ≤ 3) ∧
    suggest_transfer_moves gameweek fixtures pool picks bank m =
      (passAfter gameweek fixtures pool picks bank m m).2 := by
  constructor
  · unfold passAfter
    exact foldl_stepMove_inv gameweek fixtures pool _ _ hbank hocc
  · unfold suggest_transfer_moves passAfter worstPlayers
    rw [List.take_take]
    simp

/-- C1 witness: the concrete pass on pool [pA, pB, pC] with picks {1, 2},
bank 0, two transfers, observed after the first worst player. -/
theorem swap_pass_invariant_witness :
    0 ≤ (passAfter 1 [] [pA, pB, pC] [1, 2] 0 2 1).1.bank ∧
      (passAfter 1 [] [pA, pB, pC] [1, 2] 0 2 1).1.team_count 3 ≤ 3 := by
  have hocc : ∀ t, initTeamCount (currentSquad [pA, pB, pC] [1, 2]) t ≤ 3 := by
    intro t
    show countTeam t (currentSquad [pA, pB, pC] [1, 2]) ≤ 3
    have h1 := countTeam_le_length t (currentSquad [pA, pB, pC] [1, 2])
    have h2 : ((currentSquad [pA, pB, pC] [1, 2]).length : ℤ) = 2 := by decide
    omega
  have h := swap_pass_invariant 1 [] [pA, pB, pC] [1, 2] 0 2 1 le_rfl hocc
  exact ⟨h.1.1, h.1.2 3⟩

/-! ### C9 — pre-removal occupancy check -/

/-- C9: the 3-per-team check for a buy candidate is evaluated against the
occupancy counts before the sold player's team is decremented: any selected
candidate satisfies team_count < 3 on the pre-removal counts, so whenever the
sold player's team currently has 3 owned players, every candidate from that
same team is skipped — even though accepting it would leave the occupancy at
exactly 3. -/
theorem same_team_candidate_skipped (gameweek : ℕ) (fixtures : List Fixture)
    (pool : List Player) (st : SwapState) (sell buy : Player)
    (h : chosenFor gameweek fixtures pool st sell = some buy) :
    st.team_count buy.team < 3 ∧
    (3 ≤ st.team_count sell.team → buy.team ≠ sell.team) ∧
    ∀ cand ∈ candidatesOf pool st sell, 3 ≤ st.team_count cand.team →
      chosenFor gameweek fixtures pool st sell ≠ some cand := by
  obtain ⟨hmem, hlt⟩ := chosenFor_spec h
  refine ⟨hlt, ?_, ?_⟩
  · intro h3 heq
    rw [heq] at hlt
    omega
  · intro cand hcand h3 hc
    rw [h] at hc
    have hbc := Option.some.inj hc
    rw [hbc] at hlt
    omega

/-- Scenario for C9: the sell player's team (1) already holds 3 owned
players; candidate pDc is from team 1 and has the highest score, pEc is from
team 2. -/
def sellP : Player := ⟨1, "S", 1, 1, 50, 'a', 0, 0⟩

def pDc : Player := ⟨7, "D", 1, 1, 50, 'a', 9, 90⟩

def pEc : Player := ⟨8, "E", 2, 1, 50, 'a', 1, 90⟩

def st9 : SwapState := ⟨5, [1, 2], fun t => if t = 1 then 3 else 0⟩

/-- C9 witness: on the concrete state the chosen candidate is pEc (team 2,
occupancy 0), the same-team top scorer pDc is skipped, and the chosen team's
pre-removal occupancy is below 3. -/
theorem same_team_candidate_skipped_witness :
    st9.team_count pEc.team < 3 ∧ pEc.team ≠ sellP.team ∧
      chosenFor 1 [] [sellP, pDc, pEc] st9 sellP ≠ some pDc := by
  have hch : chosenFor 1 [] [sellP, pDc, pEc] st9 sellP = some pEc := by
    norm_num [chosenFor, selectCandidate, candidatesOf, sortDescBy,
      List.insertionSort, List.orderedInsert, playerScore, transfer_score,
      minutes_ratio, compute_fdr_for_team, windowFixtures, minEvent,
      sideRatings, meanQ, price, sellP, pDc, pEc, st9]
  have h := same_team_candidate_skipped 1 [] [sellP, pDc, pEc] st9 sellP pEc hch
  refine ⟨h.1, h.2.1 (by norm_num [st9, sellP]), ?_⟩
  refine h.2.2 pDc ?_ (by norm_num [st9, pDc])
  norm_num [candidatesOf, price, sellP, pDc, pEc, st9]

/-! ### C10 — a later swap can buy an earlier sell -/

/-- C10: concrete run with max_transfers = 2 — the first swap sells pA
(buying pC), pA's id leaves the owned set, and the second swap buys pA back
as the replacement for pB: the second suggestion's buy name equals the first
suggestion's sell name. -/
theorem later_swap_buys_earlier_sell :
    suggest_transfer_moves 1 [] [pA, pB, pC] [1, 2] 0 2 =
      [("A", "C", 0), ("B", "A", 0)] ∧
    ((suggest_transfer_moves 1 [] [pA, pB, pC] [1, 2] 0 2).getD 1
        ("", "", 0)).2.1 =
      ((suggest_transfer_moves 1 [] [pA, pB, pC] [1, 2] 0 2).getD 0
        ("", "", 0)).1 := by
  have h : suggest_transfer_moves 1 [] [pA, pB, pC] [1, 2] 0 2 =
      [("A", "C", 0), ("B", "A", 0)] := by
    norm_num [suggest_transfer_moves, worstPlayers, sortAscBy, sortDescBy,
      currentSquad, initState, initTeamCount, countTeam, stepMove, chosenFor,
      selectCandidate, candidatesOf, applySwap, price, playerScore,
      transfer_score, minutes_ratio, compute_fdr_for_team, windowFixtures,
      minEvent, sideRatings, meanQ, pA, pB, pC, List.insertionSort,
      List.orderedInsert, List.filter, List.find?, List.foldl]
  rw [h]
  exact ⟨rfl, rfl⟩

/-! ### C5 — worst players each considered once; skips do not stop the pass -/

theorem foldl_stepMove_length (gameweek : ℕ) (fixtures : List Fixture)
    (pool : List Player) (l : List Player) (acc : SwapState × List Swap) :
    (l.foldl (stepMove gameweek fixtures pool) acc).2.length ≤
      acc.2.length + l.length := by
  induction l generalizing acc with
  | nil => simp
  | cons x xs ih =>
    rw [List.foldl_cons]
    have hstep :
        (stepMove gameweek fixtures pool acc x).2.length ≤ acc.2.length + 1 := by
      unfold stepMove
      cases chosenFor gameweek fixtures pool acc.1 x <;> simp
    have h := ih (stepMove gameweek fixtures pool acc x)
    simp only [List.length_cons]
    omega

theorem sortAscBy_sorted (key : Player → ℚ) (l : List Player) :
    (sortAscBy key l).Sorted fun a b => key a ≤ key b := by
  unfold sortAscBy
  letI : IsTotal Player fun a b => key a ≤ key b :=
    ⟨fun a b => le_total (key a) (key b)⟩
  letI : IsTrans Player fun a b => key a ≤ key b :=
    ⟨fun _ _ _ h1 h2 => le_trans h1 h2⟩
  exact List.sorted_insertionSort _ l

/-- C5: the recommender's output never has more than max_transfers entries;
the worst-player list is in ascending score order; and when the first worst
player's candidate set is empty the pass continues with the remaining worst
players from the unchanged state, so the output then has at most
max_transfers − 1 entries. -/
theorem swap_pass_skip (gameweek : ℕ) (fixtures : List Fixture)
    (pool : List Player) (picks : List ℕ) (bank : ℚ) (m : ℕ) :
    (suggest_transfer_moves gameweek fixtures pool picks bank m).length ≤ m ∧
    (worstPlayers gameweek fixtures pool picks m).Sorted
      (fun a b =>
        playerScore gameweek fixtures 6 a ≤ playerScore gameweek fixtures 6 b) ∧
    ∀ w rest, worstPlayers gameweek fixtures pool picks m = w :: rest →
      candidatesOf pool (initState pool picks bank) w = [] →
      suggest_transfer_moves gameweek fixtures pool picks bank m =
        (rest.foldl (stepMove gameweek fixtures pool)
          (initState pool picks bank, [])).2 ∧
      (suggest_transfer_moves gameweek fixtures pool picks bank m).length ≤
        m - 1 := by
  have hlen : (worstPlayers gameweek fixtures pool picks m).length ≤ m := by
    unfold worstPlayers
    rw [List.length_take]
    exact min_le_left _ _
  refine ⟨?_, ?_, ?_⟩
  · unfold suggest_transfer_moves
    have h := foldl_stepMove_length gameweek fixtures pool
      (worstPlayers gameweek fixtures pool picks m) (initState pool picks bank, [])
    simp only [List.length_nil] at h
    omega
  · unfold worstPlayers
    exact List.Pairwise.sublist (List.take_sublist m _) (sortAscBy_sorted _ _)
  · intro w rest hw hcand
    have hchosen :
        chosenFor gameweek fixtures pool (initState pool picks bank) w = none := by
      unfold chosenFor
      rw [hcand]
      rfl
    have heq : suggest_transfer_moves gameweek fixtures pool picks bank m =
        (rest.foldl (stepMove gameweek fixtures pool)
          (initState pool picks bank, [])).2 := by
      unfold suggest_transfer_moves
      rw [hw, List.foldl_cons]
      have hid : stepMove gameweek fixtures pool (initState pool picks bank, []) w =
          (initState pool picks bank, []) := by
        unfold stepMove
        rw [hchosen]
      rw [hid]
    refine ⟨heq, ?_⟩
    rw [heq]
    have h := foldl_stepMove_length gameweek fixtures pool rest
      (initState pool picks bank, [])
    rw [hw] at hlen
    simp only [List.length_nil, List.length_cons] at h hlen
    omega

/-- C5 witness: the spec's scenario — max_transfers = 2, the worst player qA
has an empty candidate set, the pass still evaluates qB, and the output has
at most 1 entry. -/
theorem swap_pass_skip_witness :
    (suggest_transfer_moves 1 [] [qA, qB, qC] [1, 2] 0 2).length ≤ 2 ∧
    suggest_transfer_moves 1 [] [qA, qB, qC] [1, 2] 0 2 =
      ([qB].foldl (stepMove 1 [] [qA, qB, qC])
        (initState [qA, qB, qC] [1, 2] 0, [])).2 ∧
    (suggest_transfer_moves 1 [] [qA, qB, qC] [1, 2] 0 2).length ≤ 1 := by
  have h := swap_pass_skip 1 [] [qA, qB, qC] [1, 2] 0 2
  have hw : worstPlayers 1 [] [qA, qB, qC] [1, 2] 2 = qA :: [qB] := by
    norm_num [worstPlayers, sortAscBy, currentSquad, List.insertionSort,
      List.orderedInsert, playerScore, transfer_score, minutes_ratio,
      compute_fdr_for_team, windowFixtures, minEvent, sideRatings, meanQ,
      qA, qB, qC]
  have hcand : candidatesOf [qA, qB, qC] (initState [qA, qB, qC] [1, 2] 0) qA
      = [] := by
    norm_num [candidatesOf, initState, price, qA, qB, qC]
  have h3 := h.2.2 qA [qB] hw hcand
  exact ⟨h.1, h3.1, h3.2⟩

/-! ### C2 — squad builder quotas and budget -/

theorem price_nonneg (p : Player) : 0 ≤ price p := by
  unfold price
  positivity

theorem sumPrice_nil : sumPrice [] = 0 := rfl

theorem sumPrice_cons (p : Player) (l : List Player) :
    sumPrice (p :: l) = price p + sumPrice l := by
  simp [sumPrice]

theorem sumPrice_append (l₁ l₂ : List Player) :
    sumPrice (l₁ ++ l₂) = sumPrice l₁ + sumPrice l₂ := by
  simp [sumPrice]

theorem sumPrice_nonneg (l : List Player) : 0 ≤ sumPrice l := by
  induction l with
  | nil => exact le_refl 0
  | cons p ps ih =>
    rw [sumPrice_cons]
    have := price_nonneg p
    linarith

theorem countTeam_nonneg (t : ℕ) (l : List Player) : 0 ≤ countTeam t l := by
  unfold countTeam
  exact Int.natCast_nonneg _

theorem countTeam_cons (t : ℕ) (p : Player) (l : List Player) :
    countTeam t (p :: l) =
      countTeam t l + (if p.team = t then 1 else 0) := by
  unfold countTeam
  rw [List.filter_cons]
  by_cases h : p.team = t
  · simp [h]
  · simp [h]

theorem greedyPos_length (n : ℕ) (b : ℚ) (tc : ℕ → ℤ) (l : List Player) :
    (greedyPos n b tc l).1.length ≤ n := by
  induction l generalizing n b tc with
  | nil => cases n <;> simp [greedyPos]
  | cons p ps ih =>
    cases n with
    | zero => simp [greedyPos]
    | succ n =>
      by_cases h1 : b < price p
      · simpa [greedyPos, h1] using ih (n + 1) b tc
      · by_cases h2 : 3 ≤ tc p.team
        · simpa [greedyPos, h1, h2] using ih (n + 1) b tc
        · simp only [greedyPos, if_neg h1, if_neg h2, List.length_cons]
          exact Nat.succ_le_succ (ih n (b - price p) (bump tc p.team))

theorem greedyPos_subset {n : ℕ} {b : ℚ} {tc : ℕ → ℤ} {l : List Player}
    {q : Player} (h : q ∈ (greedyPos n b tc l).1) : q ∈ l := by
  induction l generalizing n b tc with
  | nil =>
    cases n <;> simp [greedyPos] at h
  | cons p ps ih =>
    cases n with
    | zero => simp [greedyPos] at h
    | succ n =>
      by_cases h1 : b < price p
      · simp only [greedyPos, if_pos h1] at h
        exact List.mem_cons_of_mem p (ih h)
      · by_cases h2 : 3 ≤ tc p.team
        · simp only [greedyPos, if_neg h1, if_pos h2] at h
          exact List.mem_cons_of_mem p (ih h)
        · simp only [greedyPos, if_neg h1, if_neg h2, List.mem_cons] at h
          rcases h with h | h
          · exact h ▸ List.mem_cons_self p ps
          · exact List.mem_cons_of_mem p (ih h)

theorem greedyPos_spent (n : ℕ) (b : ℚ) (tc : ℕ → ℤ) (l : List Player) :
    (greedyPos n b tc l).2.1 = b - sumPrice (greedyPos n b tc l).1 := by
  induction l generalizing n b tc with
  | nil => cases n <;> simp [greedyPos, sumPrice_nil]
  | cons p ps ih =>
    cases n with
    | zero => simp [greedyPos, sumPrice_nil]
    | succ n =>
      by_cases h1 : b < price p
      · simpa [greedyPos, h1] using ih (n + 1) b tc
      · by_cases h2 : 3 ≤ tc p.team
        · simpa [greedyPos, h1, h2] using ih (n + 1) b tc
        · simp only [greedyPos, if_neg h1, if_neg h2]
          rw [sumPrice_cons, ih n (b - price p) (bump tc p.team)]
          ring

theorem greedyPos_bank_nonneg (n : ℕ) (b : ℚ) (tc : ℕ → ℤ) (l : List Player)
    (hb : 0 ≤ b) : 0 ≤ (greedyPos n b tc l).2.1 := by
  induction l generalizing n b tc with
  | nil => cases n <;> simpa [greedyPos] using hb
  | cons p ps ih =>
    cases n with
    | zero => simpa [greedyPos] using hb
    | succ n =>
      by_cases h1 : b < price p
      · simpa [greedyPos, h1] using ih (n + 1) b tc hb
      · by_cases h2 : 3 ≤ tc p.team
        · simpa [greedyPos, h1, h2] using ih (n + 1) b tc hb
        · simp only [greedyPos, if_neg h1, if_neg h2]
          exact ih n (b - price p) (bump tc p.team) (by linarith [not_lt.mp h1])

/-- When the pool is long enough, the budget covers the first n players and
the team caps leave room for them, the greedy walk accepts exactly the first
n players of the (score-sorted) pool: a quota is left unfilled only when the
pool, the budget, or the 3-per-team cap prevented filling it. -/
theorem greedyPos_exact (l : List Player) : ∀ (n : ℕ) (b : ℚ) (tc : ℕ → ℤ),
    n ≤ l.length → sumPrice (l.take n) ≤ b →
    (∀ t, tc t + countTeam t (l.take n) ≤ 3) →
    (greedyPos n b tc l).1 = l.take n := by
  induction l with
  | nil =>
    intro n b tc hlen _ _
    rw [Nat.le_zero.mp hlen]
    simp [greedyPos]
  | cons p ps ih =>
    intro n b tc hlen hb ht
    cases n with
    | zero => simp [greedyPos]
    | succ n =>
      rw [List.take_succ_cons] at hb ht ⊢
      have hps : 0 ≤ sumPrice (ps.take n) := sumPrice_nonneg _
      rw [sumPrice_cons] at hb
      have hpb : ¬ b < price p := by
        rw [not_lt]
        linarith
      have htp : ¬ 3 ≤ tc p.team := by
        have h := ht p.team
        rw [countTeam_cons, if_pos rfl] at h
        have h0 := countTeam_nonneg p.team (ps.take n)
        omega
      simp only [greedyPos, if_neg hpb, if_neg htp]
      rw [ih n (b - price p) (bump tc p.team) (Nat.succ_le_succ_iff.mp hlen)
        (by linarith) ?team]
      case team =>
        intro t
        have h := ht t
        rw [countTeam_cons] at h
        unfold bump
        by_cases hteq : t = p.team
        · subst hteq
          rw [if_pos rfl] at h ⊢
          omega
        · rw [if_neg hteq]
          rw [if_neg (fun hh => hteq hh.symm)] at h
          omega

theorem posPool_et {gameweek : ℕ} {fixtures : List Fixture} {w : ℤ}
    {avail : List Player} {pos : ℕ} {q : Player}
    (h : q ∈ posPool gameweek fixtures w avail pos) : q.element_type = pos := by
  unfold posPool at h
  rw [mem_sortDescBy, List.mem_filter] at h
  simpa using h.2

theorem greedy_filter_self (gameweek : ℕ) (fixtures : List Fixture) (w : ℤ)
    (avail : List Player) (pos n : ℕ) (b : ℚ) (tc : ℕ → ℤ) :
    ((greedyPos n b tc (posPool gameweek fixtures w avail pos)).1.filter
      fun p => decide (p.element_type = pos)) =
    (greedyPos n b tc (posPool gameweek fixtures w avail pos)).1 :=
  List.filter_eq_self.mpr fun q hq => by
    simp [posPool_et (greedyPos_subset hq)]

theorem greedy_filter_other (gameweek : ℕ) (fixtures : List Fixture) (w : ℤ)
    (avail : List Player) (pos pos' n : ℕ) (b : ℚ) (tc : ℕ → ℤ)
    (hne : pos' ≠ pos) :
    ((greedyPos n b tc (posPool gameweek fixtures w avail pos)).1.filter
      fun p => decide (p.element_type = pos')) = [] :=
  List.filter_eq_nil_iff.mpr fun q hq => by
    have hq' := posPool_et (greedyPos_subset hq)
    simp [hq']
    exact Ne.symm hne

theorem buildFold_conserve (gameweek : ℕ) (fixtures : List Fixture) (w : ℤ)
    (avail : List Player) (prs : List (ℕ × ℕ))
    (acc : List Player × ℚ × (ℕ → ℤ)) :
    sumPrice (prs.foldl (buildStep gameweek fixtures w avail) acc).1 +
      (prs.foldl (buildStep gameweek fixtures w avail) acc).2.1 =
    sumPrice acc.1 + acc.2.1 := by
  induction prs generalizing acc with
  | nil => rfl
  | cons pr prs ih =>
    rw [List.foldl_cons, ih]
    simp only [buildStep]
    rw [sumPrice_append, greedyPos_spent]
    ring

theorem buildFold_bank_nonneg (gameweek : ℕ) (fixtures : List Fixture)
    (w : ℤ) (avail : List Player) (prs : List (ℕ × ℕ))
    (acc : List Player × ℚ × (ℕ → ℤ)) (h : 0 ≤ acc.2.1) :
    0 ≤ (prs.foldl (buildStep gameweek fixtures w avail) acc).2.1 := by
  induction prs generalizing acc with
  | nil => exact h
  | cons pr prs ih =>
    rw [List.foldl_cons]
    refine ih _ ?_
    simp only [buildStep]
    exact greedyPos_bank_nonneg _ _ _ _ h

theorem buildFold_filter_stable (gameweek : ℕ) (fixtures : List Fixture)
    (w : ℤ) (avail : List Player) (prs : List (ℕ × ℕ))
    (acc : List Player × ℚ × (ℕ → ℤ)) (pos : ℕ)
    (h : pos ∉ prs.map Prod.fst) :
    ((prs.foldl (buildStep gameweek fixtures w avail) acc).1.filter
      fun p => decide (p.element_type = pos)) =
    acc.1.filter fun p => decide (p.element_type = pos) := by
  induction prs generalizing acc with
  | nil => rfl
  | cons pr prs ih =>
    rw [List.map_cons, List.mem_cons] at h
    push_neg at h
    rw [List.foldl_cons, ih _ h.2]
    simp only [buildStep]
    rw [List.filter_append,
      greedy_filter_other gameweek fixtures w avail pr.1 pos pr.2 acc.2.1
        acc.2.2 h.1]
    simp

theorem buildFold_filter_le (gameweek : ℕ) (fixtures : List Fixture) (w : ℤ)
    (avail : List Player) (prs : List (ℕ × ℕ))
    (acc : List Player × ℚ × (ℕ → ℤ)) (pos q : ℕ)
    (hmem : (pos, q) ∈ prs) (hnodup : (prs.map Prod.fst).Nodup) :
    ((prs.foldl (buildStep gameweek fixtures w avail) acc).1.filter
      fun p => decide (p.element_type = pos)).length ≤
    (acc.1.filter fun p => decide (p.element_type = pos)).length + q := by
  induction prs generalizing acc with
  | nil => cases hmem
  | cons pr prs ih =>
    rw [List.map_cons, List.nodup_cons] at hnodup
    rw [List.foldl_cons]
    rcases List.mem_cons.mp hmem with heq | htail
    · subst heq
      have hnot : pos ∉ prs.map Prod.fst := by
        simpa using hnodup.1
      rw [buildFold_filter_stable gameweek fixtures w avail prs _ pos hnot]
      simp only [buildStep]
      rw [List.filter_append, List.length_append]
      rw [greedy_filter_self]
      have hl := greedyPos_length q acc.2.1 acc.2.2
        (posPool gameweek fixtures w avail pos)
      omega
    · have hne : pos ≠ pr.1 := by
        intro hh
        exact hnodup.1 (hh ▸ List.mem_map.mpr ⟨(pos, q), htail, rfl⟩)
      refine le_trans (ih _ htail hnodup.2) ?_
      simp only [buildStep]
      rw [List.filter_append, List.length_append,
        greedy_filter_other gameweek fixtures w avail pr.1 pos pr.2 acc.2.1
          acc.2.2 hne]
      simp

/-- C2: every build's output — for each of the four position requirements —
contains at most the required number of players of that position; the total
price of the selected players never exceeds the (non-negative) total budget;
and a requirement is met exactly (the greedy walk accepts precisely the top
of its pool) whenever the pool is long enough, the budget covers it and the
team caps leave room — so a shortfall can only come from the pool, the
budget, or the 3-per-team cap. -/
theorem build_wildcard_props (gameweek : ℕ) (pool : List Player)
    (fixtures : List Fixture) (w : ℤ) (total_budget : ℚ)
    (hB : 0 ≤ total_budget) :
    (∀ pr ∈ position_requirements,
      ((build_wildcard_team gameweek pool fixtures w total_budget).1.filter
        fun p => decide (p.element_type = pr.1)).length ≤ pr.2) ∧
    sumPrice (build_wildcard_team gameweek pool fixtures w total_budget).1 ≤
      total_budget ∧
    (∀ (n : ℕ) (b : ℚ) (tc : ℕ → ℤ) (l : List Player), n ≤ l.length →
      sumPrice (l.take n) ≤ b → (∀ t, tc t + countTeam t (l.take n) ≤ 3) →
      (greedyPos n b tc l).1 = l.take n) := by
  refine ⟨?_, ?_, fun n b tc l => greedyPos_exact l n b tc⟩
  · intro pr hpr
    unfold build_wildcard_team
    have h := buildFold_filter_le gameweek fixtures w (wcAvailable pool)
      position_requirements ([], total_budget, fun _ => 0) pr.1 pr.2
      (by simpa using hpr) (by decide)
    simpa using h
  · have hcons := buildFold_conserve gameweek fixtures w (wcAvailable pool)
      position_requirements ([], total_budget, fun _ => 0)
    have hnn := buildFold_bank_nonneg gameweek fixtures w (wcAvailable pool)
      position_requirements ([], total_budget, fun _ => 0) hB
    unfold build_wildcard_team
    rw [sumPrice_nil] at hcons
    linarith

/-- C2 witness: a one-player pool under budget 100 — at most 2 goalkeepers
are selected, the spend is within budget, and the exact-fill clause applies
to the concrete one-step greedy walk. -/
theorem build_wildcard_props_witness :
    ((build_wildcard_team 1 [pDc] [] 6 100).1.filter
      fun p => decide (p.element_type = 1)).length ≤ 2 ∧
    sumPrice (build_wildcard_team 1 [pDc] [] 6 100).1 ≤ 100 ∧
    (greedyPos 1 100 (fun _ => 0) [pDc]).1 = [pDc].take 1 := by
  have h := build_wildcard_props 1 [pDc] [] 6 100 (by norm_num)
  refine ⟨h.1 (1, 2) (by decide), h.2.1, ?_⟩
  refine h.2.2 1 100 (fun _ => 0) [pDc] (by decide) ?_ ?_
  · norm_num [sumPrice, price, pDc]
  · intro t
    show (0 : ℤ) + countTeam t ([pDc].take 1) ≤ 3
    have h1 := countTeam_le_length t ([pDc].take 1)
    have h2 : (([pDc].take 1).length : ℤ) = 1 := by decide
    omega

end FPL
